import Mathlib

/-!
Verification development for the AI Trend & Inventory Manager (ATIM)
repository, consisting of the CLI front end `main.py` and the Flask web
front end `app.py`.

The development shallowly embeds the pure computational core of the two
files:

* the keyword extractor `get_shoe_keywords` (main.py lines 25-75);
* the fallback trend sampler that synthesizes trend records when the
  external trend scorer returns nothing (main.py lines 282-310 and the
  verbatim duplicate in app.py lines 148-175);
* the keyword list construction of `process_inventory` (app.py line 138);
* the parameter-parsing boundary of `upload_file` (app.py lines 60-96).

Python floating point numbers are modelled as rationals (`ℚ`), Python
strings as Lean `String`, and the `random.uniform` draws of the fallback
sampler are modelled as an explicit stream `Nat → ℚ × ℚ` of per-iteration
`(base_strength, velocity)` pairs, making the sampler a deterministic
function of the drawn values.  External collaborators that live outside
the two source files (the trend scorer `TrendAnalyzer`, the inventory
manager, the report generator) are modelled as parameters: theorems
quantify over their possible results.
-/

/-- Models Python's `str.lower()` as used throughout both source files.
Defined at the character-list level (with Lean's ASCII `Char.toLower`)
so that it evaluates by kernel reduction on concrete strings. -/
def str_lower (s : String) : String := ⟨s.data.map Char.toLower⟩

/-- Lowering a character twice is the same as lowering it once. -/
theorem char_toLower_idem (c : Char) : c.toLower.toLower = c.toLower := by
  by_cases hb : 65 ≤ c.toNat ∧ c.toNat ≤ 90
  · have h : Char.ofNat c.toNat = c := Char.ofNat_toNat c
    obtain ⟨h1, h2⟩ := hb
    rw [← h]
    set n := c.toNat with hn
    clear_value n
    interval_cases n <;> decide
  · have h : c.toLower = c := by
      unfold Char.toLower
      rw [if_neg]
      intro hc
      exact hb ⟨hc.1, hc.2⟩
    rw [h, h]

/-- Python's `lower` is idempotent in this model. -/
theorem str_lower_idem (s : String) : str_lower (str_lower s) = str_lower s := by
  unfold str_lower
  congr 1
  rw [List.map_map]
  exact List.map_congr_left (fun c _ => char_toLower_idem c)

/-! ## The trend record

`TrendRecord` embeds the dictionaries built at main.py lines 302-310 and
app.py lines 167-175 (seven fields).  The `status` field is a string in
the source (`"Rising"`, `"Declining"`, `"Peaking"`, `"Stable"`), so it is
a `String` here as well. -/

/-- The seven-field trend record dictionary shared by both source files. -/
structure TrendRecord where
  keyword : String
  status : String
  confidence : ℚ
  velocity : ℚ
  strength : ℚ
  current_value : ℚ
  peak_value : ℚ
  deriving DecidableEq, Repr

/-- Status classification of the fallback sampler, main.py lines 293-300
and app.py lines 158-165: velocity thresholds are tested before the
strength threshold. -/
def fallback_status (velocity base_strength : ℚ) : String :=
  if velocity > 5 then "Rising"
  else if velocity < -5 then "Declining"
  else if base_strength > 70 then "Peaking"
  else "Stable"

/-- One synthetic record of the fallback sampler (main.py lines 289-310,
app.py lines 154-175; the `float(...)` coercions of app.py are the
identity in the rational model).  `base_strength` and `velocity` are the
values drawn by `random.uniform(40, 80)` and `random.uniform(-10, 15)`
for this iteration. -/
def fallback_record (keyword : String) (base_strength velocity : ℚ) : TrendRecord :=
  { keyword := keyword
    status := fallback_status velocity base_strength
    confidence := |velocity| * 0.6 + base_strength * 0.4
    velocity := velocity
    strength := base_strength
    current_value := base_strength
    peak_value := base_strength * 1.2 }

/-- The `for keyword in sample_keywords` loop of the fallback path.
`draws i` is the pair `(base_strength, velocity)` drawn at iteration `i`. -/
def fallback_loop (draws : Nat → ℚ × ℚ) : Nat → List String → List TrendRecord
  | _, [] => []
  | i, k :: rest => fallback_record k (draws i).1 (draws i).2 :: fallback_loop draws (i + 1) rest

/-- The fallback sampler: `sample_keywords = keywords[:5]` followed by the
record-building loop (main.py lines 285-310, duplicated verbatim in
app.py lines 150-175). -/
def fallback_sample (keywords : List String) (draws : Nat → ℚ × ℚ) : List TrendRecord :=
  fallback_loop draws 0 (keywords.take 5)

/-- Trending products computed by `main` in main.py lines 273-310: the
scorer result is kept unless it is empty (Python falsiness of a list),
in which case the fallback sampler's records replace it.  The scorer
`TrendAnalyzer.get_high_confidence_trends` lives outside the two source
files, so its result is a parameter. -/
def main_trending (scorer_result : List TrendRecord) (keywords : List String)
    (draws : Nat → ℚ × ℚ) : List TrendRecord :=
  if scorer_result.isEmpty then fallback_sample keywords draws else scorer_result

/-- Trending products computed by `process_inventory` in app.py lines
141-175: identical to the CLI path except that the fallback additionally
requires a non-empty keyword list (`if not trending_products and
keywords`). -/
def process_inventory_trending (scorer_result : List TrendRecord) (keywords : List String)
    (draws : Nat → ℚ × ℚ) : List TrendRecord :=
  if scorer_result.isEmpty && !keywords.isEmpty then fallback_sample keywords draws
  else scorer_result

/-! ## Keyword extraction (main.py) -/

/-- The hard-coded default keyword list of main.py lines 46-52 (repeated
at lines 54-60). -/
def default_keywords : List String :=
  ["chunky sneakers", "waterproof boots", "espadrilles",
   "ankle boots", "retro runners", "platform sandals",
   "minimalist running shoes", "suede boots", "canvas shoes",
   "running sneakers", "hiking boots", "dress shoes",
   "loafers", "high top sneakers", "slip on shoes"]

/-- The `additional_keywords` merge loop of main.py lines 62-65: a
keyword is appended lower-cased unless its lower-casing already occurs
(case-insensitively) in the list. -/
def merge_additional (keywords additional : List String) : List String :=
  additional.foldl
    (fun acc kw =>
      if str_lower kw ∈ acc.map str_lower then acc else acc ++ [str_lower kw])
    keywords

/-- The final deduplication pass of main.py lines 67-73: the Python
`seen` set is modelled as a list of already-seen lower-cased keywords
(only membership is used). -/
def dedup_pass : List String → List String → List String
  | _, [] => []
  | seen, k :: rest =>
    if str_lower k ∈ seen then dedup_pass seen rest
    else k :: dedup_pass (str_lower k :: seen) rest

/-- Embeds `get_shoe_keywords` (main.py lines 25-75).  Inventory items
are represented by their product names.  `manager_items` models the
product names returned by `InventoryManager().get_all_inventory()` when
the function has to load the inventory itself; the empty list covers
both an empty inventory and a raised exception (both leave `items`
falsy, line 36-39, so the default list is used). -/
def get_shoe_keywords (inventory_items : List String) (use_inventory : Bool)
    (additional_keywords : List String) (manager_items : List String) : List String :=
  let keywords : List String :=
    if use_inventory then
      let items := if inventory_items.isEmpty then manager_items else inventory_items
      if items.isEmpty then default_keywords else items.map str_lower
    else default_keywords
  dedup_pass [] (merge_additional keywords additional_keywords)

/-- Modelled from the spec's words (§4.1, used only for comparison with
`get_shoe_keywords`): a single pass that lower-cases every keyword and
keeps the first occurrence of each case-insensitive equivalence class,
preserving order. -/
def spec_dedup_lower : List String → List String → List String
  | _, [] => []
  | seen, k :: rest =>
    if str_lower k ∈ seen then spec_dedup_lower seen rest
    else str_lower k :: spec_dedup_lower (str_lower k :: seen) rest

/-! ## Keyword list of the web path (app.py) -/

/-- An inventory row as used by app.py (`product_name`, `current_stock`,
`reorder_point` are the fields `process_inventory` reads). -/
structure InventoryItem where
  product_name : String
  current_stock : Int
  reorder_point : Int
  deriving DecidableEq, Repr

/-- The keyword list handed to the trend scorer by `process_inventory`
(app.py line 138): every product name lower-cased, no deduplication. -/
def process_inventory_keywords (inventory_items : List InventoryItem) : List String :=
  inventory_items.map (fun item => str_lower item.product_name)

/-! ## Upload boundary (app.py) -/

/-- Embeds `allowed_file` (app.py lines 48-51): the filename contains a
dot and the extension after the last dot, lower-cased, is `csv`.
`rsplit` is modelled by taking the character suffix after the last dot. -/
def allowed_file (filename : String) : Bool :=
  filename.data.contains '.' &&
    str_lower ⟨(filename.data.reverse.takeWhile (fun c => c ≠ '.')).reverse⟩ == "csv"

/-- Error responses of `upload_file`: `badRequest` models the
`jsonify({'error': ...}), 400` returns, `serverError` the generic
exception handler returning status 500 (app.py lines 92-96). -/
inductive UploadError where
  | badRequest (msg : String)
  | serverError (msg : String)
  deriving DecidableEq, Repr

/-- Embeds the request handling of `upload_file` (app.py lines 60-96)
around the `process_inventory` call.  A form field is modelled by its
coercion outcome: `none` means the field is absent (the default is
used), `some none` means it is present but not coercible by
`int()`/`float()` (which raises, caught by the handler as a 500 error),
and `some (some x)` means it coerces to `x`.  The processing function
`process` stands for `process_inventory`, which is only invoked once
both parameters have been parsed. -/
def upload_file {α : Type} (has_file : Bool) (filename : String)
    (max_keywords_field : Option (Option Int))
    (min_confidence_field : Option (Option ℚ))
    (process : Int → ℚ → α) : Except UploadError α :=
  if !has_file then .error (.badRequest "No file provided")
  else if filename == "" then .error (.badRequest "No file selected")
  else if !allowed_file filename then
    .error (.badRequest "Invalid file type. Please upload a CSV file.")
  else
    match max_keywords_field.getD (some 15) with
    | none => .error (.serverError "invalid literal for int() with base 10")
    | some mk =>
      match min_confidence_field.getD (some 20) with
      | none => .error (.serverError "could not convert string to float")
      | some mc => .ok (process mk mc)

/-! ## Basic lemmas about the fallback loop -/

/-- Every record produced by the fallback loop is a `fallback_record`
built from one of the drawn pairs. -/
theorem fallback_loop_mem (draws : Nat → ℚ × ℚ) :
    ∀ (l : List String) (i : Nat) (r : TrendRecord), r ∈ fallback_loop draws i l →
    ∃ j k, r = fallback_record k (draws j).1 (draws j).2 := by
  intro l
  induction l with
  | nil => intro i r hr; cases hr
  | cons k rest ih =>
    intro i r hr
    rcases List.mem_cons.mp hr with h | h
    · exact ⟨i, k, h⟩
    · exact ih (i + 1) r h

/-- The fallback loop produces one record per keyword. -/
theorem fallback_loop_length (draws : Nat → ℚ × ℚ) :
    ∀ (l : List String) (i : Nat), (fallback_loop draws i l).length = l.length := by
  intro l
  induction l with
  | nil => intro i; rfl
  | cons k rest ih => intro i; simp [fallback_loop, ih]

/-- The keyword fields of the fallback loop's output are exactly the
input keywords, in order. -/
theorem fallback_loop_map_keyword (draws : Nat → ℚ × ℚ) :
    ∀ (l : List String) (i : Nat),
    (fallback_loop draws i l).map TrendRecord.keyword = l := by
  intro l
  induction l with
  | nil => intro i; rfl
  | cons k rest ih => intro i; simp [fallback_loop, fallback_record, ih]

/-- The record at position `j` of the fallback loop started at iteration
`i` is built from keyword `j` and draw `i + j`. -/
theorem fallback_loop_get (draws : Nat → ℚ × ℚ) :
    ∀ (l : List String) (i j : Nat) (h : j < (fallback_loop draws i l).length)
      (h' : j < l.length),
    (fallback_loop draws i l).get ⟨j, h⟩ =
      fallback_record (l.get ⟨j, h'⟩) (draws (i + j)).1 (draws (i + j)).2 := by
  intro l
  induction l with
  | nil => intro i j h h'; cases h'
  | cons k rest ih =>
    intro i j h h'
    cases j with
    | zero => simp [fallback_loop]
    | succ j =>
      have hr : j < (fallback_loop draws (i + 1) rest).length := by
        have := h
        simpa [fallback_loop] using this
      have hr' : j < rest.length := by simpa using h'
      have := ih (i + 1) j hr hr'
      simpa [fallback_loop, Nat.add_assoc, Nat.add_comm 1 j] using this

/-- C1: every synthetic record of the fallback sampling path (the block
duplicated at main.py lines 285-310 and app.py lines 150-175) has
`confidence = |velocity| * 0.6 + strength * 0.4`, where `velocity` and
`strength` are the record's own fields. -/
theorem fallback_confidence_formula (keywords : List String) (draws : Nat → ℚ × ℚ)
    (r : TrendRecord) (hr : r ∈ fallback_sample keywords draws) :
    r.confidence = |r.velocity| * 0.6 + r.strength * 0.4 := by
  obtain ⟨j, k, rfl⟩ := fallback_loop_mem draws (keywords.take 5) 0 r hr
  rfl

/-- Witness for C1 at the concrete keyword list `["x"]` with draw
`(base_strength, velocity) = (50, -3)`. -/
theorem fallback_confidence_formula_witness :
    (fallback_record "x" 50 (-3)).confidence =
      |(fallback_record "x" 50 (-3)).velocity| * 0.6 +
        (fallback_record "x" 50 (-3)).strength * 0.4 :=
  fallback_confidence_formula ["x"] (fun _ => (50, -3)) _ (List.mem_singleton.mpr rfl)

/-- C2: the status of a trend record is decided by the velocity
thresholds first and the strength threshold only afterwards; in
particular `velocity = 6, strength = 90` is classified `Rising`, not
`Peaking`. -/
theorem fallback_status_priority (velocity base_strength : ℚ) (keyword : String) :
    (velocity > 5 → fallback_status velocity base_strength = "Rising") ∧
    (velocity < -5 → fallback_status velocity base_strength = "Declining") ∧
    (velocity ≤ 5 → -5 ≤ velocity → base_strength > 70 →
      fallback_status velocity base_strength = "Peaking") ∧
    (velocity ≤ 5 → -5 ≤ velocity → base_strength ≤ 70 →
      fallback_status velocity base_strength = "Stable") ∧
    (fallback_record keyword base_strength velocity).status =
      fallback_status velocity base_strength ∧
    fallback_status 6 90 = "Rising" := by
  refine ⟨?_, ?_, ?_, ?_, rfl, by decide⟩
  · intro h
    unfold fallback_status
    rw [if_pos h]
  · intro h
    unfold fallback_status
    rw [if_neg (by linarith), if_pos h]
  · intro h1 h2 h3
    unfold fallback_status
    rw [if_neg (by linarith), if_neg (by linarith), if_pos h3]
  · intro h1 h2 h3
    unfold fallback_status
    rw [if_neg (by linarith), if_neg (by linarith), if_neg (by linarith)]

/-- Witness for C2: the four classification branches at the spec's own
example inputs, obtained from `fallback_status_priority` with its
hypotheses discharged at those inputs. -/
theorem fallback_status_priority_witness :
    fallback_status 6 90 = "Rising" ∧ fallback_status (-6) 90 = "Declining" ∧
    fallback_status 2 75 = "Peaking" ∧ fallback_status 0 50 = "Stable" :=
  ⟨(fallback_status_priority 6 90 "a").1 (by norm_num),
   (fallback_status_priority (-6) 90 "a").2.1 (by norm_num),
   (fallback_status_priority 2 75 "a").2.2.1 (by norm_num) (by norm_num) (by norm_num),
   (fallback_status_priority 0 50 "a").2.2.2.1 (by norm_num) (by norm_num) (by norm_num)⟩

/-- C4: the fallback sampler produces exactly one record for each of the
first `min 5 n` keywords, taken deterministically in input order whatever
the random draws are; with six keywords the sixth gets no record. -/
theorem fallback_sample_selection (keywords : List String) (draws : Nat → ℚ × ℚ) :
    (fallback_sample keywords draws).length = min 5 keywords.length ∧
    (fallback_sample keywords draws).map TrendRecord.keyword = keywords.take 5 ∧
    (fallback_sample ["x", "y", "z", "w", "v", "u"] draws).length = 5 ∧
    "u" ∉ (fallback_sample ["x", "y", "z", "w", "v", "u"] draws).map TrendRecord.keyword := by
  refine ⟨?_, ?_, ?_, ?_⟩
  · rw [fallback_sample, fallback_loop_length, List.length_take]
  · rw [fallback_sample, fallback_loop_map_keyword]
  · rw [fallback_sample, fallback_loop_length]
    rfl
  · rw [fallback_sample, fallback_loop_map_keyword]
    decide

/-- C5: the `i`-th synthetic record of the fallback sampler stores the
`i`-th drawn `base_strength` as its `strength` and `current_value`
fields and exactly `base_strength * 1.2` as its `peak_value`. -/
theorem fallback_sample_fields (keywords : List String) (draws : Nat → ℚ × ℚ)
    (i : Nat) (h : i < (fallback_sample keywords draws).length) :
    ((fallback_sample keywords draws).get ⟨i, h⟩).strength = (draws i).1 ∧
    ((fallback_sample keywords draws).get ⟨i, h⟩).current_value = (draws i).1 ∧
    ((fallback_sample keywords draws).get ⟨i, h⟩).peak_value = (draws i).1 * 1.2 ∧
    ((fallback_sample keywords draws).get ⟨i, h⟩).current_value =
      ((fallback_sample keywords draws).get ⟨i, h⟩).strength ∧
    ((fallback_sample keywords draws).get ⟨i, h⟩).peak_value =
      ((fallback_sample keywords draws).get ⟨i, h⟩).strength * 1.2 := by
  have h' : i < (keywords.take 5).length := by
    rwa [fallback_sample, fallback_loop_length] at h
  have hg := fallback_loop_get draws (keywords.take 5) 0 i h h'
  unfold fallback_sample
  rw [hg]
  simp [fallback_record]

/-- Witness for C5 at the concrete keyword list `["a"]` with draw
`(base_strength, velocity) = (50, 1)`. -/
theorem fallback_sample_fields_witness :
    ((fallback_sample ["a"] (fun _ => (50, 1))).get ⟨0, by decide⟩).strength = 50 ∧
    ((fallback_sample ["a"] (fun _ => (50, 1))).get ⟨0, by decide⟩).current_value = 50 ∧
    ((fallback_sample ["a"] (fun _ => (50, 1))).get ⟨0, by decide⟩).peak_value = 50 * 1.2 ∧
    ((fallback_sample ["a"] (fun _ => (50, 1))).get ⟨0, by decide⟩).current_value =
      ((fallback_sample ["a"] (fun _ => (50, 1))).get ⟨0, by decide⟩).strength ∧
    ((fallback_sample ["a"] (fun _ => (50, 1))).get ⟨0, by decide⟩).peak_value =
      ((fallback_sample ["a"] (fun _ => (50, 1))).get ⟨0, by decide⟩).strength * 1.2 :=
  fallback_sample_fields ["a"] (fun _ => (50, 1)) 0 (by decide)

/-- C6: whenever the trend scorer returns a non-empty result, or the
keyword list is empty, neither orchestration path adds synthetic
records: the scorer's output is passed through unchanged (in main.py the
fallback block still runs on an empty keyword list but its loop body
executes zero times). -/
theorem fallback_invocation_guard (scorer_result : List TrendRecord) (keywords : List String)
    (draws : Nat → ℚ × ℚ) (h : scorer_result ≠ [] ∨ keywords = []) :
    main_trending scorer_result keywords draws = scorer_result ∧
    process_inventory_trending scorer_result keywords draws = scorer_result := by
  rcases h with h | h
  · have he : scorer_result.isEmpty = false := by
      simpa [List.isEmpty_iff] using h
    exact ⟨by simp [main_trending, he], by simp [process_inventory_trending, he]⟩
  · subst h
    refine ⟨?_, by simp [process_inventory_trending]⟩
    by_cases hs : scorer_result.isEmpty
    · rw [List.isEmpty_iff] at hs
      subst hs
      rfl
    · simp [main_trending, hs]

/-- Witness for C6 at the empty scorer result and empty keyword list. -/
theorem fallback_invocation_guard_witness :
    main_trending [] [] (fun _ => (0, 0)) = [] ∧
    process_inventory_trending [] [] (fun _ => (0, 0)) = [] :=
  fallback_invocation_guard [] [] (fun _ => (0, 0)) (Or.inr rfl)

/-- C9: when every draw satisfies `40 ≤ base_strength ≤ 80` and
`-10 ≤ velocity ≤ 15` (the ranges of `random.uniform` in the source),
each synthetic record's confidence lies in `[16, 41]`; moreover
`min_confidence` is never applied to synthetic records, so for some
draws both orchestration paths return records whose confidence is below
the default threshold `20`. -/
theorem fallback_confidence_bounds (keywords : List String) (draws : Nat → ℚ × ℚ)
    (hd : ∀ i, 40 ≤ (draws i).1 ∧ (draws i).1 ≤ 80 ∧ -10 ≤ (draws i).2 ∧ (draws i).2 ≤ 15)
    (r : TrendRecord) (hr : r ∈ fallback_sample keywords draws) :
    (16 ≤ r.confidence ∧ r.confidence ≤ 41) ∧
    ∃ d : Nat → ℚ × ℚ, ∃ s ∈ main_trending [] ["a"] d,
      ∃ t ∈ process_inventory_trending [] ["a"] d,
        s.confidence < 20 ∧ t.confidence < 20 := by
  constructor
  · obtain ⟨j, k, rfl⟩ := fallback_loop_mem draws (keywords.take 5) 0 r hr
    obtain ⟨h1, h2, h3, h4⟩ := hd j
    have habs : |(draws j).2| ≤ 15 := abs_le.mpr ⟨by linarith, h4⟩
    have habs0 : 0 ≤ |(draws j).2| := abs_nonneg _
    constructor
    · show 16 ≤ |(draws j).2| * 0.6 + (draws j).1 * 0.4
      linarith
    · show |(draws j).2| * 0.6 + (draws j).1 * 0.4 ≤ 41
      linarith
  · refine ⟨fun _ => (40, 0), fallback_record "a" 40 0, List.mem_singleton.mpr rfl,
      fallback_record "a" 40 0, List.mem_singleton.mpr rfl, ?_, ?_⟩
    · show |(0 : ℚ)| * 0.6 + 40 * 0.4 < 20
      rw [abs_zero]
      norm_num
    · show |(0 : ℚ)| * 0.6 + 40 * 0.4 < 20
      rw [abs_zero]
      norm_num

/-- Witness for C9 at the keyword list `["a"]` with constant draw
`(base_strength, velocity) = (50, 10)`. -/
theorem fallback_confidence_bounds_witness :
    (16 ≤ (fallback_record "a" 50 10).confidence ∧
      (fallback_record "a" 50 10).confidence ≤ 41) ∧
    ∃ d : Nat → ℚ × ℚ, ∃ s ∈ main_trending [] ["a"] d,
      ∃ t ∈ process_inventory_trending [] ["a"] d,
        s.confidence < 20 ∧ t.confidence < 20 :=
  fallback_confidence_bounds ["a"] (fun _ => (50, 10))
    (fun _ => by norm_num) _ (List.mem_singleton.mpr rfl)

/-- C8: a `min_confidence` form value that is not coercible to a number
makes `upload_file` return an error before `process_inventory` is ever
invoked: the response is the coercion failure, and it does not depend on
the processing function at all (so no scoring, fallback sampling or
report generation happens). -/
theorem upload_invalid_min_confidence {α : Type} (filename : String)
    (max_keywords_field : Option (Option Int)) (p₁ p₂ : Int → ℚ → α)
    (hf : filename ≠ "") (ha : allowed_file filename = true)
    (hm : max_keywords_field ≠ some none) :
    upload_file true filename max_keywords_field (some none) p₁ =
      .error (.serverError "could not convert string to float") ∧
    upload_file true filename max_keywords_field (some none) p₁ =
      upload_file true filename max_keywords_field (some none) p₂ := by
  have hfb : (filename == "") = false := beq_eq_false_iff_ne.mpr hf
  cases max_keywords_field with
  | none => exact ⟨by simp [upload_file, hfb, ha], by simp [upload_file, hfb, ha]⟩
  | some mo =>
    cases mo with
    | none => exact absurd rfl hm
    | some mk => exact ⟨by simp [upload_file, hfb, ha], by simp [upload_file, hfb, ha]⟩

/-- Witness for C8 at the filename `inventory.csv` with `max_keywords`
absent and two distinct processing functions. -/
theorem upload_invalid_min_confidence_witness :
    upload_file true "inventory.csv" none (some none) (fun _ _ => (0 : Nat)) =
      .error (.serverError "could not convert string to float") ∧
    upload_file true "inventory.csv" none (some none) (fun _ _ => (0 : Nat)) =
      upload_file true "inventory.csv" none (some none) (fun _ _ => (1 : Nat)) :=
  upload_invalid_min_confidence "inventory.csv" none (fun _ _ => 0) (fun _ _ => 1)
    (by decide) (by decide) (by decide)

/-- C10: the keyword list `process_inventory` hands to the trend scorer
is every product name lower-cased with duplicates preserved (its length
always equals the inventory's length), and two inventory rows whose
names agree case-insensitively contribute two occurrences of the same
keyword — no deduplication on this path. -/
theorem process_inventory_keywords_no_dedup (pre mid post : List InventoryItem)
    (a b : InventoryItem)
    (hab : str_lower a.product_name = str_lower b.product_name) :
    (∀ items : List InventoryItem,
      (process_inventory_keywords items).length = items.length) ∧
    2 ≤ (process_inventory_keywords (pre ++ a :: (mid ++ b :: post))).count
          (str_lower a.product_name) := by
  constructor
  · intro items
    simp [process_inventory_keywords]
  · unfold process_inventory_keywords
    rw [List.map_append, List.map_cons, List.map_append, List.map_cons, ← hab]
    simp only [List.count_append, List.count_cons_self]
    omega

/-- Witness for C10: an inventory of exactly the rows `Boot` and `boot`
yields the keyword `boot` twice. -/
theorem process_inventory_keywords_no_dedup_witness :
    (∀ items : List InventoryItem,
      (process_inventory_keywords items).length = items.length) ∧
    2 ≤ (process_inventory_keywords
          ([] ++ ⟨"Boot", 3, 5⟩ :: ([] ++ ⟨"boot", 7, 2⟩ :: []))).count
          (str_lower (InventoryItem.mk "Boot" 3 5).product_name) :=
  process_inventory_keywords_no_dedup [] [] [] ⟨"Boot", 3, 5⟩ ⟨"boot", 7, 2⟩ (by decide)

/-! ## Deduplication lemmas for the keyword extractor -/

/-- Running the final dedup pass over an already lower-cased list is the
same as the spec's single lower-case-and-dedup pass. -/
theorem dedup_pass_map_lower (xs : List String) :
    ∀ seen, dedup_pass seen (xs.map str_lower) = spec_dedup_lower seen xs := by
  induction xs with
  | nil => intro seen; rfl
  | cons x rest ih =>
    intro seen
    simp only [List.map_cons, dedup_pass, spec_dedup_lower, str_lower_idem, ih]

/-- The merge loop for additional keywords only ever appends. -/
theorem merge_additional_append (additional : List String) :
    ∀ acc, ∃ t, merge_additional acc additional = acc ++ t := by
  induction additional with
  | nil => intro acc; exact ⟨[], by simp [merge_additional]⟩
  | cons kw rest ih =>
    intro acc
    rw [show merge_additional acc (kw :: rest) =
          merge_additional
            (if str_lower kw ∈ acc.map str_lower then acc else acc ++ [str_lower kw]) rest
        from rfl]
    by_cases hk : str_lower kw ∈ acc.map str_lower
    · rw [if_pos hk]
      exact ih acc
    · rw [if_neg hk]
      obtain ⟨t, ht⟩ := ih (acc ++ [str_lower kw])
      exact ⟨str_lower kw :: t, by simpa [List.append_assoc] using ht⟩

/-- Dropping an element whose lower-casing is already seen, or already
occurs (case-insensitively) earlier in the list, does not change the
result of the dedup pass. -/
theorem dedup_pass_middle (x : String) :
    ∀ (base seen rest : List String),
    (str_lower x ∈ seen ∨ ∃ b ∈ base, str_lower b = str_lower x) →
    dedup_pass seen (base ++ x :: rest) = dedup_pass seen (base ++ rest) := by
  intro base
  induction base with
  | nil =>
    intro seen rest h
    have hx : str_lower x ∈ seen := by
      rcases h with h | ⟨b, hb, _⟩
      · exact h
      · cases hb
    simp [dedup_pass, hx]
  | cons c base' ih =>
    intro seen rest h
    simp only [List.cons_append, dedup_pass]
    by_cases hc : str_lower c ∈ seen
    · rw [if_pos hc, if_pos hc]
      apply ih
      rcases h with h | ⟨b, hb, hbe⟩
      · exact Or.inl h
      · rcases List.mem_cons.mp hb with rfl | hb'
        · exact Or.inl (hbe ▸ hc)
        · exact Or.inr ⟨b, hb', hbe⟩
    · rw [if_neg hc, if_neg hc]
      congr 1
      apply ih
      rcases h with h | ⟨b, hb, hbe⟩
      · exact Or.inl (List.mem_cons_of_mem _ h)
      · rcases List.mem_cons.mp hb with rfl | hb'
        · exact Or.inl (hbe ▸ List.mem_cons_self _ _)
        · exact Or.inr ⟨b, hb', hbe⟩

/-- Interposing the merge loop before the final dedup pass changes
nothing: merging and then deduplicating is deduplicating the plain
concatenation (for an already lower-cased base list). -/
theorem dedup_merge (additional : List String) :
    ∀ base, (∀ x ∈ base, str_lower x = x) →
    dedup_pass [] (merge_additional base additional) =
      dedup_pass [] (base ++ additional.map str_lower) := by
  induction additional with
  | nil => intro base _; simp [merge_additional]
  | cons kw rest ih =>
    intro base hb
    have hmap : base.map str_lower = base := by
      rw [List.map_congr_left hb]
      simp
    rw [show merge_additional base (kw :: rest) =
          merge_additional
            (if str_lower kw ∈ base.map str_lower then base else base ++ [str_lower kw]) rest
        from rfl, hmap]
    by_cases hk : str_lower kw ∈ base
    · rw [if_pos hk, ih base hb, List.map_cons]
      exact (dedup_pass_middle (str_lower kw) base [] (rest.map str_lower)
        (Or.inr ⟨str_lower kw, hk, rfl⟩)).symm
    · rw [if_neg hk]
      have hb' : ∀ x ∈ base ++ [str_lower kw], str_lower x = x := by
        intro x hx
        rcases List.mem_append.mp hx with hx | hx
        · exact hb x hx
        · rw [List.mem_singleton.mp hx]
          exact str_lower_idem kw
      rw [ih (base ++ [str_lower kw]) hb', List.map_cons]
      simp [List.append_assoc]

/-- The dedup pass of a non-empty list with nothing seen yet keeps the
head, so its output is non-empty. -/
theorem dedup_pass_ne_nil (x : String) (xs : List String) :
    dedup_pass [] (x :: xs) ≠ [] := by
  simp [dedup_pass]

/-- C3 counterexample: the claim does not hold for every sequence of
inventory product names — at the concrete empty input (no additional
keywords, the inventory manager also yielding nothing) the extractor
does not return the deduplication of its input (which would be empty):
it returns the default keyword list instead. -/
theorem get_shoe_keywords_dedup_counterexample :
    get_shoe_keywords [] true [] [] ≠ spec_dedup_lower [] ([] ++ []) := by
  decide

/-- C3 amended: for every non-empty inventory, `get_shoe_keywords`
returns exactly the lower-cased, case-insensitively
first-occurrence-deduplicated sequence of the inventory product names
followed by the additional keywords; product names
`["Boots", "boots", "Shoes"]` yield `["boots", "shoes"]`.  (On an empty
inventory the function falls back to the manager/default keyword list
instead, so the non-emptiness restriction is necessary.) -/
theorem get_shoe_keywords_dedup
    (inventory_items additional_keywords manager_items : List String)
    (h : inventory_items ≠ []) :
    get_shoe_keywords inventory_items true additional_keywords manager_items =
      spec_dedup_lower [] (inventory_items ++ additional_keywords) ∧
    get_shoe_keywords ["Boots", "boots", "Shoes"] true [] [] =
      ["boots", "shoes"] := by
  constructor
  · have hne : inventory_items.isEmpty = false := by
      simpa [List.isEmpty_iff] using h
    unfold get_shoe_keywords
    simp only [hne, if_true, Bool.false_eq_true, if_false, List.isEmpty_nil]
    have hlow : ∀ x ∈ inventory_items.map str_lower, str_lower x = x := by
      intro x hx
      obtain ⟨y, _, rfl⟩ := List.mem_map.mp hx
      exact str_lower_idem y
    rw [dedup_merge additional_keywords (inventory_items.map str_lower) hlow,
      ← List.map_append]
    exact dedup_pass_map_lower (inventory_items ++ additional_keywords) []
  · decide

/-- Witness for C3 on the inventory `["Boots", "boots", "Shoes"]` with
the additional keywords `["SHOES", "Heels"]`. -/
theorem get_shoe_keywords_dedup_witness :
    get_shoe_keywords ["Boots", "boots", "Shoes"] true ["SHOES", "Heels"] [] =
      spec_dedup_lower [] (["Boots", "boots", "Shoes"] ++ ["SHOES", "Heels"]) ∧
    get_shoe_keywords ["Boots", "boots", "Shoes"] true [] [] = ["boots", "shoes"] :=
  get_shoe_keywords_dedup ["Boots", "boots", "Shoes"] ["SHOES", "Heels"] [] (by decide)

/-- C7 counterexample: with an empty inventory list (and no additional
keywords, with the inventory manager also yielding nothing) the keyword
extractor does not return the empty sequence — it returns the built-in
default keyword list. -/
theorem get_shoe_keywords_empty_counterexample :
    get_shoe_keywords [] true [] [] = default_keywords ∧
    get_shoe_keywords [] true [] [] ≠ [] := by
  constructor <;> decide

/-- C7 amended: on an empty inventory list `get_shoe_keywords` does not
return the empty sequence; it falls back to the inventory manager's
product names (lower-cased and deduplicated) and, when those are also
missing, to the built-in default keyword list — in every case the
result is non-empty, and no error is raised. -/
theorem get_shoe_keywords_empty_fallback (additional_keywords manager_items : List String) :
    get_shoe_keywords [] true [] manager_items =
      (if manager_items.isEmpty then default_keywords
       else spec_dedup_lower [] manager_items) ∧
    get_shoe_keywords [] true additional_keywords manager_items ≠ [] := by
  constructor
  · cases manager_items with
    | nil => decide
    | cons m ms =>
      show dedup_pass [] (merge_additional ((m :: ms).map str_lower) []) =
        spec_dedup_lower [] (m :: ms)
      rw [show merge_additional ((m :: ms).map str_lower) [] = (m :: ms).map str_lower
          from rfl]
      exact dedup_pass_map_lower (m :: ms) []
  · cases manager_items with
    | nil =>
      show dedup_pass [] (merge_additional default_keywords additional_keywords) ≠ []
      obtain ⟨t, ht⟩ := merge_additional_append additional_keywords default_keywords
      have hc : merge_additional default_keywords additional_keywords =
          "chunky sneakers" :: (default_keywords.tail ++ t) := ht.trans rfl
      rw [hc]
      exact dedup_pass_ne_nil _ _
    | cons m ms =>
      show dedup_pass []
          (merge_additional ((m :: ms).map str_lower) additional_keywords) ≠ []
      obtain ⟨t, ht⟩ :=
        merge_additional_append additional_keywords ((m :: ms).map str_lower)
      have hc : merge_additional ((m :: ms).map str_lower) additional_keywords =
          str_lower m :: (ms.map str_lower ++ t) := ht.trans rfl
      rw [hc]
      exact dedup_pass_ne_nil _ _
